import Mathlib

/-!
Verification of the `endbyte` endianness-conversion library.

The source (src/src/lib.rs) provides, for each fixed-width integer type,
four operations: `host_to_big_endian`, `host_to_little_endian`,
`big_endian_to_host`, `little_endian_to_host`.  Multi-byte unsigned types
are implemented by `impl_endianness_unsigned!` (conditional `swap_bytes`
keyed on `get_local_endianness()`); signed multi-byte types reinterpret the
bit pattern as unsigned, apply the unsigned operation, and reinterpret
back (`impl_endianness_signed!` with `ToUnsigned` and
`from_ne_bytes`/`to_ne_bytes`); `u8`/`i8` are unconditional identities.

Embedding choices:
* an n-byte unsigned value is a `Nat` below `256 ^ n`; a w-bit signed value
  is an `Int` in `[-2^(w-1), 2^(w-1))`;
* the compile-time `#[cfg(target_endian = ...)]` choice is a parameter
  `host : EndiannessType` threaded through the operations;
* the macro-generated per-type implementations become functions
  parametrized by the byte count `n`, covering the instantiations
  `u16/u32/u64/u128` (`n = 2, 4, 8, 16`) and `i16/i32/i64/i128` uniformly.
-/

namespace Endbyte

/-- `EndiannessType` from lib.rs: the byte order of the host system. -/
inductive EndiannessType where
  | BigEndian
  | LittleEndian
deriving DecidableEq, Repr

/-- `get_local_endianness` from lib.rs: resolves the `target_endian` cfg.
The build target's endianness is the parameter `target`; the function
returns `BigEndian` under `cfg(target_endian = "big")` and `LittleEndian`
under `cfg(target_endian = "little")`. -/
def get_local_endianness (target : EndiannessType) : EndiannessType :=
  match target with
  | EndiannessType.BigEndian => EndiannessType.BigEndian
  | EndiannessType.LittleEndian => EndiannessType.LittleEndian

/-- The little-endian byte sequence (length `n`) of a native integer value:
the in-memory bytes viewed least-significant first. -/
def toLEBytes : Nat → Nat → List Nat
  | 0, _ => []
  | n + 1, v => v % 256 :: toLEBytes n (v / 256)

/-- Rebuild a native integer value from its little-endian byte sequence. -/
def ofLEBytes : List Nat → Nat
  | [] => 0
  | b :: bs => b + 256 * ofLEBytes bs

/-- Rust's `swap_bytes` intrinsic on an `n`-byte unsigned integer:
reverse the order of the constituent bytes. -/
def swap_bytes (n : Nat) (v : Nat) : Nat :=
  ofLEBytes (toLEBytes n v).reverse

theorem toLEBytes_length (n v : Nat) : (toLEBytes n v).length = n := by
  induction n generalizing v with
  | zero => rfl
  | succ n ih => simp [toLEBytes, ih]

theorem toLEBytes_lt (n v : Nat) : ∀ b ∈ toLEBytes n v, b < 256 := by
  induction n generalizing v with
  | zero => intro b hb; simp [toLEBytes] at hb
  | succ n ih =>
    intro b hb
    simp only [toLEBytes, List.mem_cons] at hb
    rcases hb with h | h
    · omega
    · exact ih _ b h

theorem ofLEBytes_lt (l : List Nat) (h : ∀ b ∈ l, b < 256) :
    ofLEBytes l < 256 ^ l.length := by
  induction l with
  | nil => simp [ofLEBytes]
  | cons b bs ih =>
    have hb : b < 256 := h b (by simp)
    have hbs : ofLEBytes bs < 256 ^ bs.length := ih fun x hx => h x (by simp [hx])
    have h1 : b + 256 * ofLEBytes bs < 256 * (ofLEBytes bs + 1) := by omega
    have h2 : 256 * (ofLEBytes bs + 1) ≤ 256 * 256 ^ bs.length :=
      Nat.mul_le_mul_left 256 hbs
    calc ofLEBytes (b :: bs) = b + 256 * ofLEBytes bs := rfl
      _ < 256 * 256 ^ bs.length := lt_of_lt_of_le h1 h2
      _ = 256 ^ (b :: bs).length := by rw [List.length_cons, pow_succ, mul_comm]

theorem ofLEBytes_toLEBytes (n v : Nat) (h : v < 256 ^ n) :
    ofLEBytes (toLEBytes n v) = v := by
  induction n generalizing v with
  | zero => simp [toLEBytes, ofLEBytes]; omega
  | succ n ih =>
    have hdiv : v / 256 < 256 ^ n := by
      rw [Nat.div_lt_iff_lt_mul (by norm_num : 0 < 256)]
      calc v < 256 ^ (n + 1) := h
        _ = 256 ^ n * 256 := by rw [pow_succ]
    calc ofLEBytes (toLEBytes (n + 1) v)
        = v % 256 + 256 * ofLEBytes (toLEBytes n (v / 256)) := rfl
      _ = v % 256 + 256 * (v / 256) := by rw [ih _ hdiv]
      _ = v := Nat.mod_add_div v 256

theorem toLEBytes_ofLEBytes (l : List Nat) (h : ∀ b ∈ l, b < 256) :
    toLEBytes l.length (ofLEBytes l) = l := by
  induction l with
  | nil => rfl
  | cons b bs ih =>
    have hb : b < 256 := h b (by simp)
    have hmod : (b + 256 * ofLEBytes bs) % 256 = b := by
      rw [Nat.add_mul_mod_self_left, Nat.mod_eq_of_lt hb]
    have hdiv : (b + 256 * ofLEBytes bs) / 256 = ofLEBytes bs := by
      rw [Nat.add_mul_div_left _ _ (by norm_num : 0 < 256),
        Nat.div_eq_of_lt hb, Nat.zero_add]
    calc toLEBytes (b :: bs).length (ofLEBytes (b :: bs))
        = (b + 256 * ofLEBytes bs) % 256
            :: toLEBytes bs.length ((b + 256 * ofLEBytes bs) / 256) := rfl
      _ = b :: toLEBytes bs.length (ofLEBytes bs) := by rw [hmod, hdiv]
      _ = b :: bs := by rw [ih fun x hx => h x (by simp [hx])]

theorem swap_bytes_lt (n v : Nat) : swap_bytes n v < 256 ^ n := by
  have h := ofLEBytes_lt (toLEBytes n v).reverse
    (fun b hb => toLEBytes_lt n v b (List.mem_reverse.mp hb))
  rwa [List.length_reverse, toLEBytes_length] at h

theorem swap_bytes_swap_bytes (n v : Nat) (h : v < 256 ^ n) :
    swap_bytes n (swap_bytes n v) = v := by
  unfold swap_bytes
  have hlen : (toLEBytes n v).reverse.length = n := by
    rw [List.length_reverse, toLEBytes_length]
  have hlt : ∀ b ∈ (toLEBytes n v).reverse, b < 256 :=
    fun b hb => toLEBytes_lt n v b (List.mem_reverse.mp hb)
  have hrt := toLEBytes_ofLEBytes (toLEBytes n v).reverse hlt
  rw [hlen] at hrt
  rw [hrt, List.reverse_reverse, ofLEBytes_toLEBytes n v h]

/-! ### The four operations, unsigned multi-byte (`impl_endianness_unsigned!`)

Instantiated in the source at `u16, u32, u64, u128`, i.e. `n = 2, 4, 8, 16`. -/

/-- `host_to_big_endian` for an `n`-byte unsigned integer. -/
def host_to_big_endian (n : Nat) (host : EndiannessType) (v : Nat) : Nat :=
  match get_local_endianness host with
  | EndiannessType.BigEndian => v
  | EndiannessType.LittleEndian => swap_bytes n v

/-- `host_to_little_endian` for an `n`-byte unsigned integer. -/
def host_to_little_endian (n : Nat) (host : EndiannessType) (v : Nat) : Nat :=
  match get_local_endianness host with
  | EndiannessType.BigEndian => swap_bytes n v
  | EndiannessType.LittleEndian => v

/-- `big_endian_to_host` for an `n`-byte unsigned integer. -/
def big_endian_to_host (n : Nat) (host : EndiannessType) (v : Nat) : Nat :=
  match get_local_endianness host with
  | EndiannessType.BigEndian => v
  | EndiannessType.LittleEndian => swap_bytes n v

/-- `little_endian_to_host` for an `n`-byte unsigned integer. -/
def little_endian_to_host (n : Nat) (host : EndiannessType) (v : Nat) : Nat :=
  match get_local_endianness host with
  | EndiannessType.BigEndian => swap_bytes n v
  | EndiannessType.LittleEndian => v

/-! ### The four operations on `u8` (`impl Endianness for u8`) -/

def u8_host_to_big_endian (v : Nat) : Nat := v

def u8_host_to_little_endian (v : Nat) : Nat := v

def u8_big_endian_to_host (v : Nat) : Nat := v

def u8_little_endian_to_host (v : Nat) : Nat := v

/-! ### The four operations on `i8` (`impl Endianness for i8`) -/

def i8_host_to_big_endian (v : Int) : Int := v

def i8_host_to_little_endian (v : Int) : Int := v

def i8_big_endian_to_host (v : Int) : Int := v

def i8_little_endian_to_host (v : Int) : Int := v

/-! ### Bit-pattern reinterpretation between signed and unsigned

`self as <$t as ToUnsigned>::Unsigned` on an `iW` value is a bit-pattern
reinterpretation into `uW`: it is the value taken modulo `2^W`.
`<$t>::from_ne_bytes(u.to_ne_bytes())` reinterprets the `uW` bit pattern
back as `iW` (two's complement). -/

/-- `v as uW` for a `W`-bit signed value `v`: the bit pattern as a `Nat`. -/
def toUnsignedBits (w : Nat) (v : Int) : Nat :=
  (v % (2 : Int) ^ w).toNat

/-- `iW::from_ne_bytes(u.to_ne_bytes())`: the `W`-bit pattern `u` read as a
two's-complement signed value. -/
def ofUnsignedBits (w : Nat) (u : Nat) : Int :=
  if u < 2 ^ (w - 1) then (u : Int) else (u : Int) - (2 : Int) ^ w

/-- The representable range of a `W`-bit two's-complement signed integer. -/
def inSignedRange (w : Nat) (v : Int) : Prop :=
  -((2 : Int) ^ (w - 1)) ≤ v ∧ v < (2 : Int) ^ (w - 1)

instance (w : Nat) (v : Int) : Decidable (inSignedRange w v) := by
  unfold inSignedRange; infer_instance

/-! ### The four operations, signed multi-byte (`impl_endianness_signed!`)

Each operation casts to the unsigned counterpart (`ToUnsigned`), applies
the unsigned operation, and reinterprets the native bytes of the result as
the signed type.  Instantiated at `i16, i32, i64, i128`, i.e. byte count
`n = 2, 4, 8, 16` and bit width `8 * n`. -/

/-- `host_to_big_endian` for an `n`-byte signed integer. -/
def s_host_to_big_endian (n : Nat) (host : EndiannessType) (v : Int) : Int :=
  ofUnsignedBits (8 * n) (host_to_big_endian n host (toUnsignedBits (8 * n) v))

/-- `host_to_little_endian` for an `n`-byte signed integer. -/
def s_host_to_little_endian (n : Nat) (host : EndiannessType) (v : Int) : Int :=
  ofUnsignedBits (8 * n) (host_to_little_endian n host (toUnsignedBits (8 * n) v))

/-- `big_endian_to_host` for an `n`-byte signed integer. -/
def s_big_endian_to_host (n : Nat) (host : EndiannessType) (v : Int) : Int :=
  ofUnsignedBits (8 * n) (big_endian_to_host n host (toUnsignedBits (8 * n) v))

/-- `little_endian_to_host` for an `n`-byte signed integer. -/
def s_little_endian_to_host (n : Nat) (host : EndiannessType) (v : Int) : Int :=
  ofUnsignedBits (8 * n) (little_endian_to_host n host (toUnsignedBits (8 * n) v))

/-- `iW::swap_bytes`: byte reversal of a signed value's bit pattern. -/
def s_swap_bytes (n : Nat) (v : Int) : Int :=
  ofUnsignedBits (8 * n) (swap_bytes n (toUnsignedBits (8 * n) v))

/-! ### Reinterpretation lemmas -/

theorem toUnsignedBits_lt (w : Nat) (v : Int) : toUnsignedBits w v < 2 ^ w := by
  have hk : (0 : Int) < (2 : Int) ^ w := by positivity
  have h1 : 0 ≤ v % (2 : Int) ^ w := Int.emod_nonneg v (ne_of_gt hk)
  have h2 : v % (2 : Int) ^ w < (2 : Int) ^ w := Int.emod_lt_of_pos v hk
  have hcast : ((2 ^ w : Nat) : Int) = (2 : Int) ^ w := by push_cast; ring
  unfold toUnsignedBits
  omega

theorem toUnsignedBits_ofUnsignedBits (w u : Nat) (hu : u < 2 ^ w) :
    toUnsignedBits w (ofUnsignedBits w u) = u := by
  have hcast : ((2 ^ w : Nat) : Int) = (2 : Int) ^ w := by push_cast; ring
  have huZ : (u : Int) < (2 : Int) ^ w := by
    rw [← hcast]; exact_mod_cast hu
  unfold toUnsignedBits ofUnsignedBits
  by_cases hc : u < 2 ^ (w - 1)
  · simp only [hc, if_true]
    rw [Int.emod_eq_of_lt (by positivity) huZ]
    omega
  · simp only [hc, if_false]
    have hsub : ((u : Int) - (2 : Int) ^ w) % (2 : Int) ^ w
        = (u : Int) % (2 : Int) ^ w := by
      have h := @Int.add_mul_emod_self_left (u : Int) ((2 : Int) ^ w) (-1)
      have heq : (u : Int) + (2 : Int) ^ w * (-1) = (u : Int) - (2 : Int) ^ w := by
        ring
      rw [heq] at h
      exact h
    rw [hsub, Int.emod_eq_of_lt (by positivity) huZ]
    omega

theorem two_pow_split (w : Nat) (hw : 0 < w) :
    (2 : Int) ^ w = 2 * (2 : Int) ^ (w - 1) := by
  conv_lhs => rw [show w = (w - 1) + 1 from by omega]
  rw [pow_succ]
  ring

theorem ofUnsignedBits_toUnsignedBits (w : Nat) (v : Int) (hw : 0 < w)
    (hv : inSignedRange w v) : ofUnsignedBits w (toUnsignedBits w v) = v := by
  obtain ⟨hlo, hhi⟩ := hv
  have hk : (0 : Int) < (2 : Int) ^ w := by positivity
  have hsplit := two_pow_split w hw
  have hhalf : (0 : Int) < (2 : Int) ^ (w - 1) := by positivity
  have hcastH : ((2 ^ (w - 1) : Nat) : Int) = (2 : Int) ^ (w - 1) := by
    push_cast; ring
  unfold toUnsignedBits ofUnsignedBits
  by_cases hnn : 0 ≤ v
  · have hmod : v % (2 : Int) ^ w = v := Int.emod_eq_of_lt hnn (by omega)
    rw [hmod]
    have hvN : v.toNat < 2 ^ (w - 1) := by omega
    simp only [hvN, if_true]
    omega
  · have hmod : v % (2 : Int) ^ w = v + (2 : Int) ^ w := by
      have h := @Int.add_mul_emod_self_left v ((2 : Int) ^ w) 1
      rw [mul_one] at h
      rw [← h]
      exact Int.emod_eq_of_lt (by omega) (by omega)
    rw [hmod]
    have hvN : ¬ (v + (2 : Int) ^ w).toNat < 2 ^ (w - 1) := by omega
    simp only [hvN, if_false]
    omega

theorem ofUnsignedBits_inSignedRange (w u : Nat) (hw : 0 < w)
    (hu : u < 2 ^ w) : inSignedRange w (ofUnsignedBits w u) := by
  have hsplit := two_pow_split w hw
  have hcastH : ((2 ^ (w - 1) : Nat) : Int) = (2 : Int) ^ (w - 1) := by
    push_cast; ring
  have hcast : ((2 ^ w : Nat) : Int) = (2 : Int) ^ w := by push_cast; ring
  unfold ofUnsignedBits inSignedRange
  by_cases hc : u < 2 ^ (w - 1)
  · simp only [hc, if_true]
    omega
  · simp only [hc, if_false]
    omega

theorem pow256_eq (n : Nat) : 256 ^ n = 2 ^ (8 * n) := by
  rw [pow_mul]
  norm_num

/-! ### Operation-level helper lemmas -/

theorem swap_bytes_lt_pow2 (n v : Nat) : swap_bytes n v < 2 ^ (8 * n) := by
  rw [← pow256_eq]
  exact swap_bytes_lt n v

theorem toUnsignedBits_lt_pow256 (n : Nat) (v : Int) :
    toUnsignedBits (8 * n) v < 256 ^ n := by
  rw [pow256_eq]
  exact toUnsignedBits_lt (8 * n) v

theorem swap_bytes_one (v : Nat) : swap_bytes 1 v = v % 256 := by
  simp [swap_bytes, toLEBytes, ofLEBytes]

theorem host_to_big_endian_lt (n : Nat) (host : EndiannessType) (u : Nat)
    (hu : u < 256 ^ n) : host_to_big_endian n host u < 256 ^ n := by
  cases host
  · exact hu
  · exact swap_bytes_lt n u

theorem host_to_little_endian_lt (n : Nat) (host : EndiannessType) (u : Nat)
    (hu : u < 256 ^ n) : host_to_little_endian n host u < 256 ^ n := by
  cases host
  · exact swap_bytes_lt n u
  · exact hu

theorem big_endian_to_host_lt (n : Nat) (host : EndiannessType) (u : Nat)
    (hu : u < 256 ^ n) : big_endian_to_host n host u < 256 ^ n := by
  cases host
  · exact hu
  · exact swap_bytes_lt n u

theorem little_endian_to_host_lt (n : Nat) (host : EndiannessType) (u : Nat)
    (hu : u < 256 ^ n) : little_endian_to_host n host u < 256 ^ n := by
  cases host
  · exact swap_bytes_lt n u
  · exact hu

theorem round_unsigned_big (n : Nat) (host : EndiannessType) (u : Nat)
    (hu : u < 256 ^ n) :
    big_endian_to_host n host (host_to_big_endian n host u) = u := by
  cases host
  · rfl
  · exact swap_bytes_swap_bytes n u hu

theorem round_unsigned_little (n : Nat) (host : EndiannessType) (u : Nat)
    (hu : u < 256 ^ n) :
    little_endian_to_host n host (host_to_little_endian n host u) = u := by
  cases host
  · exact swap_bytes_swap_bytes n u hu
  · rfl

theorem round_signed_big (n : Nat) (host : EndiannessType) (v : Int)
    (hn : 0 < n) (hv : inSignedRange (8 * n) v) :
    s_big_endian_to_host n host (s_host_to_big_endian n host v) = v := by
  have hw : 0 < 8 * n := by omega
  have htu : toUnsignedBits (8 * n) v < 256 ^ n := toUnsignedBits_lt_pow256 n v
  unfold s_big_endian_to_host s_host_to_big_endian
  cases host
  · show ofUnsignedBits (8 * n)
      (toUnsignedBits (8 * n) (ofUnsignedBits (8 * n) (toUnsignedBits (8 * n) v))) = v
    rw [toUnsignedBits_ofUnsignedBits _ _ (toUnsignedBits_lt (8 * n) v)]
    exact ofUnsignedBits_toUnsignedBits _ _ hw hv
  · show ofUnsignedBits (8 * n)
      (swap_bytes n (toUnsignedBits (8 * n)
        (ofUnsignedBits (8 * n) (swap_bytes n (toUnsignedBits (8 * n) v))))) = v
    rw [toUnsignedBits_ofUnsignedBits _ _ (swap_bytes_lt_pow2 n _),
      swap_bytes_swap_bytes n _ htu]
    exact ofUnsignedBits_toUnsignedBits _ _ hw hv

theorem round_signed_little (n : Nat) (host : EndiannessType) (v : Int)
    (hn : 0 < n) (hv : inSignedRange (8 * n) v) :
    s_little_endian_to_host n host (s_host_to_little_endian n host v) = v := by
  have hw : 0 < 8 * n := by omega
  have htu : toUnsignedBits (8 * n) v < 256 ^ n := toUnsignedBits_lt_pow256 n v
  unfold s_little_endian_to_host s_host_to_little_endian
  cases host
  · show ofUnsignedBits (8 * n)
      (swap_bytes n (toUnsignedBits (8 * n)
        (ofUnsignedBits (8 * n) (swap_bytes n (toUnsignedBits (8 * n) v))))) = v
    rw [toUnsignedBits_ofUnsignedBits _ _ (swap_bytes_lt_pow2 n _),
      swap_bytes_swap_bytes n _ htu]
    exact ofUnsignedBits_toUnsignedBits _ _ hw hv
  · show ofUnsignedBits (8 * n)
      (toUnsignedBits (8 * n) (ofUnsignedBits (8 * n) (toUnsignedBits (8 * n) v))) = v
    rw [toUnsignedBits_ofUnsignedBits _ _ (toUnsignedBits_lt (8 * n) v)]
    exact ofUnsignedBits_toUnsignedBits _ _ hw hv

/-! ### Claim theorems -/

/-- C1: for every supported integer type (unsigned and signed, widths
8/16/32/64/128) and every value, converting host-to-X and then X-back-to-host
is the identity for both X = big and X = little.  Multi-byte types are the
parametric operations at byte count `n` (source instantiations
`n = 2, 4, 8, 16`); the 8-bit types are the dedicated `u8`/`i8`
implementations. -/
theorem c1_round_trip_identity (n : Nat) (host : EndiannessType)
    (u : Nat) (v : Int) (b : Nat) (s : Int)
    (hn : 0 < n) (hu : u < 256 ^ n) (hv : inSignedRange (8 * n) v) :
    big_endian_to_host n host (host_to_big_endian n host u) = u ∧
    little_endian_to_host n host (host_to_little_endian n host u) = u ∧
    s_big_endian_to_host n host (s_host_to_big_endian n host v) = v ∧
    s_little_endian_to_host n host (s_host_to_little_endian n host v) = v ∧
    u8_big_endian_to_host (u8_host_to_big_endian b) = b ∧
    u8_little_endian_to_host (u8_host_to_little_endian b) = b ∧
    i8_big_endian_to_host (i8_host_to_big_endian s) = s ∧
    i8_little_endian_to_host (i8_host_to_little_endian s) = s :=
  ⟨round_unsigned_big n host u hu, round_unsigned_little n host u hu,
    round_signed_big n host v hn hv, round_signed_little n host v hn hv,
    rfl, rfl, rfl, rfl⟩

/-- Witness for C1 at `n = 2` (the `u16`/`i16` instantiation) on a
little-endian host. -/
theorem c1_round_trip_identity_witness :
    big_endian_to_host 2 EndiannessType.LittleEndian
      (host_to_big_endian 2 EndiannessType.LittleEndian 0x1234) = 0x1234 ∧
    little_endian_to_host 2 EndiannessType.LittleEndian
      (host_to_little_endian 2 EndiannessType.LittleEndian 0x1234) = 0x1234 ∧
    s_big_endian_to_host 2 EndiannessType.LittleEndian
      (s_host_to_big_endian 2 EndiannessType.LittleEndian (-0x1234)) = -0x1234 ∧
    s_little_endian_to_host 2 EndiannessType.LittleEndian
      (s_host_to_little_endian 2 EndiannessType.LittleEndian (-0x1234)) = -0x1234 ∧
    u8_big_endian_to_host (u8_host_to_big_endian 0x42) = 0x42 ∧
    u8_little_endian_to_host (u8_host_to_little_endian 0x42) = 0x42 ∧
    i8_big_endian_to_host (i8_host_to_big_endian (-5)) = -5 ∧
    i8_little_endian_to_host (i8_host_to_little_endian (-5)) = -5 :=
  c1_round_trip_identity 2 EndiannessType.LittleEndian 0x1234 (-0x1234) 0x42 (-5)
    (by decide) (by decide) (by decide)

/-- C2: for every multi-byte type and every value, `host_to_big_endian`
returns the value unchanged when the host is big-endian and the byte-order
reversed value otherwise; symmetrically, `host_to_little_endian` returns the
value unchanged when the host is little-endian and the byte-order reversed
value otherwise.  Byte-order reversal is `swap_bytes` for unsigned values
and `s_swap_bytes` (reversal of the two's-complement bit pattern) for
signed values. -/
theorem c2_swap_if_mismatch (n : Nat) (u : Nat) (v : Int)
    (hn : 0 < n) (hv : inSignedRange (8 * n) v) :
    host_to_big_endian n EndiannessType.BigEndian u = u ∧
    host_to_big_endian n EndiannessType.LittleEndian u = swap_bytes n u ∧
    host_to_little_endian n EndiannessType.LittleEndian u = u ∧
    host_to_little_endian n EndiannessType.BigEndian u = swap_bytes n u ∧
    s_host_to_big_endian n EndiannessType.BigEndian v = v ∧
    s_host_to_big_endian n EndiannessType.LittleEndian v = s_swap_bytes n v ∧
    s_host_to_little_endian n EndiannessType.LittleEndian v = v ∧
    s_host_to_little_endian n EndiannessType.BigEndian v = s_swap_bytes n v :=
  ⟨rfl, rfl, rfl, rfl,
    ofUnsignedBits_toUnsignedBits (8 * n) v (by omega) hv, rfl,
    ofUnsignedBits_toUnsignedBits (8 * n) v (by omega) hv, rfl⟩

/-- Witness for C2 at `n = 2` with `u = 0x1234` and `v = -2`. -/
theorem c2_swap_if_mismatch_witness :
    host_to_big_endian 2 EndiannessType.BigEndian 0x1234 = 0x1234 ∧
    host_to_big_endian 2 EndiannessType.LittleEndian 0x1234 = swap_bytes 2 0x1234 ∧
    host_to_little_endian 2 EndiannessType.LittleEndian 0x1234 = 0x1234 ∧
    host_to_little_endian 2 EndiannessType.BigEndian 0x1234 = swap_bytes 2 0x1234 ∧
    s_host_to_big_endian 2 EndiannessType.BigEndian (-2) = -2 ∧
    s_host_to_big_endian 2 EndiannessType.LittleEndian (-2) = s_swap_bytes 2 (-2) ∧
    s_host_to_little_endian 2 EndiannessType.LittleEndian (-2) = -2 ∧
    s_host_to_little_endian 2 EndiannessType.BigEndian (-2) = s_swap_bytes 2 (-2) :=
  c2_swap_if_mismatch 2 0x1234 (-2) (by decide) (by decide)

/-- C3: for every supported type and every value, `host_to_big_endian` and
`big_endian_to_host` compute the identical transformation, and likewise for
the little-endian pair.  In the source the two members of each pair have
syntactically identical bodies, so the equalities hold definitionally. -/
theorem c3_operation_pair_equality (n : Nat) (host : EndiannessType)
    (u : Nat) (v : Int) (b : Nat) (s : Int) :
    host_to_big_endian n host u = big_endian_to_host n host u ∧
    host_to_little_endian n host u = little_endian_to_host n host u ∧
    s_host_to_big_endian n host v = s_big_endian_to_host n host v ∧
    s_host_to_little_endian n host v = s_little_endian_to_host n host v ∧
    u8_host_to_big_endian b = u8_big_endian_to_host b ∧
    u8_host_to_little_endian b = u8_little_endian_to_host b ∧
    i8_host_to_big_endian s = i8_big_endian_to_host s ∧
    i8_host_to_little_endian s = i8_little_endian_to_host s :=
  ⟨rfl, rfl, rfl, rfl, rfl, rfl, rfl, rfl⟩

/-- C4: every signed multi-byte operation equals the composite
reinterpret-as-unsigned, apply the unsigned operation, reinterpret back
(the first four conjuncts, which hold by definition of the embedding of
`impl_endianness_signed!`); consequently each signed operation performs
exactly the same byte-level transformation as its unsigned counterpart
(the last four conjuncts: the operations commute with the bit-pattern
view). -/
theorem c4_signed_via_unsigned (n : Nat) (host : EndiannessType) (v : Int) :
    s_host_to_big_endian n host v
      = ofUnsignedBits (8 * n)
          (host_to_big_endian n host (toUnsignedBits (8 * n) v)) ∧
    s_host_to_little_endian n host v
      = ofUnsignedBits (8 * n)
          (host_to_little_endian n host (toUnsignedBits (8 * n) v)) ∧
    s_big_endian_to_host n host v
      = ofUnsignedBits (8 * n)
          (big_endian_to_host n host (toUnsignedBits (8 * n) v)) ∧
    s_little_endian_to_host n host v
      = ofUnsignedBits (8 * n)
          (little_endian_to_host n host (toUnsignedBits (8 * n) v)) ∧
    toUnsignedBits (8 * n) (s_host_to_big_endian n host v)
      = host_to_big_endian n host (toUnsignedBits (8 * n) v) ∧
    toUnsignedBits (8 * n) (s_host_to_little_endian n host v)
      = host_to_little_endian n host (toUnsignedBits (8 * n) v) ∧
    toUnsignedBits (8 * n) (s_big_endian_to_host n host v)
      = big_endian_to_host n host (toUnsignedBits (8 * n) v) ∧
    toUnsignedBits (8 * n) (s_little_endian_to_host n host v)
      = little_endian_to_host n host (toUnsignedBits (8 * n) v) := by
  have hb : host_to_big_endian n host (toUnsignedBits (8 * n) v) < 2 ^ (8 * n) := by
    rw [← pow256_eq]
    exact host_to_big_endian_lt n host _ (toUnsignedBits_lt_pow256 n v)
  have hl : host_to_little_endian n host (toUnsignedBits (8 * n) v) < 2 ^ (8 * n) := by
    rw [← pow256_eq]
    exact host_to_little_endian_lt n host _ (toUnsignedBits_lt_pow256 n v)
  have hb2 : big_endian_to_host n host (toUnsignedBits (8 * n) v) < 2 ^ (8 * n) := by
    rw [← pow256_eq]
    exact big_endian_to_host_lt n host _ (toUnsignedBits_lt_pow256 n v)
  have hl2 : little_endian_to_host n host (toUnsignedBits (8 * n) v) < 2 ^ (8 * n) := by
    rw [← pow256_eq]
    exact little_endian_to_host_lt n host _ (toUnsignedBits_lt_pow256 n v)
  refine ⟨rfl, rfl, rfl, rfl, ?_, ?_, ?_, ?_⟩
  · exact toUnsignedBits_ofUnsignedBits _ _ hb
  · exact toUnsignedBits_ofUnsignedBits _ _ hl
  · exact toUnsignedBits_ofUnsignedBits _ _ hb2
  · exact toUnsignedBits_ofUnsignedBits _ _ hl2

/-- C5: for every supported type and every value, the host-to-big result is
the byte reversal of the host-to-little result, whatever the host
endianness.  For the 8-bit types the reversal of a single byte is the
identity, so the two sides agree trivially. -/
theorem c5_cross_consistency (n : Nat) (host : EndiannessType)
    (u : Nat) (v : Int) (b : Nat) (s : Int)
    (hn : 0 < n) (hu : u < 256 ^ n) (hv : inSignedRange (8 * n) v)
    (hb : b < 256) (hs : inSignedRange 8 s) :
    host_to_big_endian n host u = swap_bytes n (host_to_little_endian n host u) ∧
    s_host_to_big_endian n host v
      = s_swap_bytes n (s_host_to_little_endian n host v) ∧
    u8_host_to_big_endian b = swap_bytes 1 (u8_host_to_little_endian b) ∧
    i8_host_to_big_endian s = s_swap_bytes 1 (i8_host_to_little_endian s) := by
  have hw : 0 < 8 * n := by omega
  have htu : toUnsignedBits (8 * n) v < 256 ^ n := toUnsignedBits_lt_pow256 n v
  refine ⟨?_, ?_, ?_, ?_⟩
  · cases host
    · exact (swap_bytes_swap_bytes n u hu).symm
    · rfl
  · cases host
    · show ofUnsignedBits (8 * n) (toUnsignedBits (8 * n) v)
        = s_swap_bytes n (ofUnsignedBits (8 * n)
            (swap_bytes n (toUnsignedBits (8 * n) v)))
      unfold s_swap_bytes
      rw [toUnsignedBits_ofUnsignedBits _ _ (swap_bytes_lt_pow2 n _),
        swap_bytes_swap_bytes n _ htu]
    · show ofUnsignedBits (8 * n) (swap_bytes n (toUnsignedBits (8 * n) v))
        = s_swap_bytes n (ofUnsignedBits (8 * n) (toUnsignedBits (8 * n) v))
      rw [ofUnsignedBits_toUnsignedBits (8 * n) v hw hv]
      rfl
  · show b = swap_bytes 1 b
    rw [swap_bytes_one, Nat.mod_eq_of_lt hb]
  · show s = s_swap_bytes 1 s
    unfold s_swap_bytes
    rw [swap_bytes_one, show (8 * 1 : Nat) = 8 from rfl,
      Nat.mod_eq_of_lt (lt_of_lt_of_le (toUnsignedBits_lt 8 s) (by norm_num)),
      ofUnsignedBits_toUnsignedBits 8 s (by omega) hs]

/-- Witness for C5 at `n = 2`, `host = LittleEndian`, `u = 0x1234`,
`v = -0x1234`, `b = 0x42`, `s = -5`. -/
theorem c5_cross_consistency_witness :
    host_to_big_endian 2 EndiannessType.LittleEndian 0x1234
      = swap_bytes 2 (host_to_little_endian 2 EndiannessType.LittleEndian 0x1234) ∧
    s_host_to_big_endian 2 EndiannessType.LittleEndian (-0x1234)
      = s_swap_bytes 2 (s_host_to_little_endian 2 EndiannessType.LittleEndian (-0x1234)) ∧
    u8_host_to_big_endian 0x42 = swap_bytes 1 (u8_host_to_little_endian 0x42) ∧
    i8_host_to_big_endian (-5) = s_swap_bytes 1 (i8_host_to_little_endian (-5)) :=
  c5_cross_consistency 2 EndiannessType.LittleEndian 0x1234 (-0x1234) 0x42 (-5)
    (by decide) (by decide) (by decide) (by decide) (by decide)

/-- C6: for the 8-bit types `u8` and `i8`, all four operations return the
input unchanged for every value, unconditionally — the source
implementations do not consult the host endianness at all. -/
theorem c6_single_byte_identity (b : Nat) (s : Int) :
    u8_host_to_big_endian b = b ∧
    u8_host_to_little_endian b = b ∧
    u8_big_endian_to_host b = b ∧
    u8_little_endian_to_host b = b ∧
    i8_host_to_big_endian s = s ∧
    i8_host_to_little_endian s = s ∧
    i8_big_endian_to_host s = s ∧
    i8_little_endian_to_host s = s :=
  ⟨rfl, rfl, rfl, rfl, rfl, rfl, rfl, rfl⟩

/-- C7: on a little-endian host, `0x1234u16.host_to_big_endian() == 0x3412`,
`0x1234u16.host_to_little_endian() == 0x1234`, and
`0x12345678u32.host_to_big_endian() == 0x78563412`. -/
theorem c7_concrete_vectors :
    host_to_big_endian 2 EndiannessType.LittleEndian 0x1234 = 0x3412 ∧
    host_to_little_endian 2 EndiannessType.LittleEndian 0x1234 = 0x1234 ∧
    host_to_big_endian 4 EndiannessType.LittleEndian 0x12345678 = 0x78563412 := by
  refine ⟨?_, ?_, ?_⟩ <;> decide

/-- C8: every operation on every supported type is total.  In the embedding
each operation is a total function; this theorem states the complementary
well-definedness fact that every operation maps the representable range of
its type into itself, so no input produces an out-of-range or unspecified
result. -/
theorem c8_totality (n : Nat) (host : EndiannessType)
    (u : Nat) (v : Int) (b : Nat) (s : Int)
    (hn : 0 < n) (hu : u < 256 ^ n) (hv : inSignedRange (8 * n) v)
    (hb : b < 256) (hs : inSignedRange 8 s) :
    host_to_big_endian n host u < 256 ^ n ∧
    host_to_little_endian n host u < 256 ^ n ∧
    big_endian_to_host n host u < 256 ^ n ∧
    little_endian_to_host n host u < 256 ^ n ∧
    inSignedRange (8 * n) (s_host_to_big_endian n host v) ∧
    inSignedRange (8 * n) (s_host_to_little_endian n host v) ∧
    inSignedRange (8 * n) (s_big_endian_to_host n host v) ∧
    inSignedRange (8 * n) (s_little_endian_to_host n host v) ∧
    u8_host_to_big_endian b < 256 ∧
    u8_host_to_little_endian b < 256 ∧
    u8_big_endian_to_host b < 256 ∧
    u8_little_endian_to_host b < 256 ∧
    inSignedRange 8 (i8_host_to_big_endian s) ∧
    inSignedRange 8 (i8_host_to_little_endian s) ∧
    inSignedRange 8 (i8_big_endian_to_host s) ∧
    inSignedRange 8 (i8_little_endian_to_host s) := by
  have hw : 0 < 8 * n := by omega
  have hrange : ∀ x : Nat, x < 256 ^ n → inSignedRange (8 * n) (ofUnsignedBits (8 * n) x) := by
    intro x hx
    refine ofUnsignedBits_inSignedRange (8 * n) x hw ?_
    rwa [← pow256_eq]
  refine ⟨host_to_big_endian_lt n host u hu, host_to_little_endian_lt n host u hu,
    big_endian_to_host_lt n host u hu, little_endian_to_host_lt n host u hu,
    hrange _ (host_to_big_endian_lt n host _ (toUnsignedBits_lt_pow256 n v)),
    hrange _ (host_to_little_endian_lt n host _ (toUnsignedBits_lt_pow256 n v)),
    hrange _ (big_endian_to_host_lt n host _ (toUnsignedBits_lt_pow256 n v)),
    hrange _ (little_endian_to_host_lt n host _ (toUnsignedBits_lt_pow256 n v)),
    hb, hb, hb, hb, hs, hs, hs, hs⟩

/-- Witness for C8 at `n = 4` (the `u32`/`i32` instantiation) on a
big-endian host. -/
theorem c8_totality_witness :
    host_to_big_endian 4 EndiannessType.BigEndian 0x12345678 < 256 ^ 4 ∧
    host_to_little_endian 4 EndiannessType.BigEndian 0x12345678 < 256 ^ 4 ∧
    big_endian_to_host 4 EndiannessType.BigEndian 0x12345678 < 256 ^ 4 ∧
    little_endian_to_host 4 EndiannessType.BigEndian 0x12345678 < 256 ^ 4 ∧
    inSignedRange (8 * 4) (s_host_to_big_endian 4 EndiannessType.BigEndian (-7)) ∧
    inSignedRange (8 * 4) (s_host_to_little_endian 4 EndiannessType.BigEndian (-7)) ∧
    inSignedRange (8 * 4) (s_big_endian_to_host 4 EndiannessType.BigEndian (-7)) ∧
    inSignedRange (8 * 4) (s_little_endian_to_host 4 EndiannessType.BigEndian (-7)) ∧
    u8_host_to_big_endian 0x42 < 256 ∧
    u8_host_to_little_endian 0x42 < 256 ∧
    u8_big_endian_to_host 0x42 < 256 ∧
    u8_little_endian_to_host 0x42 < 256 ∧
    inSignedRange 8 (i8_host_to_big_endian (-5)) ∧
    inSignedRange 8 (i8_host_to_little_endian (-5)) ∧
    inSignedRange 8 (i8_big_endian_to_host (-5)) ∧
    inSignedRange 8 (i8_little_endian_to_host (-5)) :=
  c8_totality 4 EndiannessType.BigEndian 0x12345678 (-7) 0x42 (-5)
    (by decide) (by decide) (by decide) (by decide) (by decide)

/-- C9: `get_local_endianness` returns `BigEndian` exactly when the build
target is big-endian and `LittleEndian` exactly when it is little-endian;
being a pure function of the fixed build target, it yields the same value
on every call. -/
theorem c9_local_endianness :
    get_local_endianness EndiannessType.BigEndian = EndiannessType.BigEndian ∧
    get_local_endianness EndiannessType.LittleEndian = EndiannessType.LittleEndian :=
  ⟨rfl, rfl⟩

/-- C10: the conversions do not preserve numeric sign on signed types: on a
little-endian host the positive `i16` value `0x12FF` maps under
`host_to_big_endian` to a negative value, and the round trip through
`big_endian_to_host` restores the original value. -/
theorem c10_sign_not_preserved :
    (0 : Int) < 0x12FF ∧
    s_host_to_big_endian 2 EndiannessType.LittleEndian 0x12FF < 0 ∧
    s_big_endian_to_host 2 EndiannessType.LittleEndian
      (s_host_to_big_endian 2 EndiannessType.LittleEndian 0x12FF) = 0x12FF := by
  refine ⟨by norm_num, ?_, ?_⟩ <;> decide

end Endbyte
